import Mathlib

/-!
Shallow embedding of the recipe-management API (Django app under `app/`):
the data model (`core/models.py`), the recipe serializer logic
(`recipe/serializers.py`), the view querysets (`recipe/views.py`) and the
user manager (`core/models.py`).  Database tables are lists of records,
many-to-many link sets are lists of record ids, and the ORM primitives the
code calls (`get_or_create`, m2m `add` and `clear`, queryset `filter`,
`order_by`, `distinct`, `get_object`) are modelled explicitly with their
documented semantics.  Fallible operations return `Except`.
-/

namespace RecipeApp

/-- Tag record (`core/models.py`, class `Tag`): a name plus the id of the
owning user. -/
structure Tag where
  id : Nat
  name : String
  user : Nat
deriving DecidableEq, Repr

/-- Ingredient record (`core/models.py`, class `Ingredient`): structurally
identical to `Tag`. -/
structure Ingredient where
  id : Nat
  name : String
  user : Nat
deriving DecidableEq, Repr

/-- Recipe record (`core/models.py`, class `Recipe`).  The price
(`DecimalField(max_digits=5, decimal_places=2)`) is modelled as an integer
number of hundredths; the two `ManyToManyField` relations are modelled as
lists of ids of linked records (the m2m link tables, denormalised onto the
recipe row); the nullable image field is not needed by any claim and is
omitted. -/
structure Recipe where
  id : Nat
  user : Nat
  title : String
  description : String
  time_minutes : Int
  price : Int
  link : String
  tagIds : List Nat
  ingredientIds : List Nat
deriving DecidableEq, Repr

/-- The database state: one table per model, plus the next auto-generated
primary key for each table. -/
structure DB where
  tags : List Tag
  ingredients : List Ingredient
  recipes : List Recipe
  nextTagId : Nat
  nextIngredientId : Nat
  nextRecipeId : Nat
deriving DecidableEq, Repr

/-- Errors the ORM layer can raise during the operations we model.
`Tag.objects.get_or_create(...)` calls `get(...)` first, which raises
`MultipleObjectsReturned` when more than one row matches (there is no
unique constraint on (user, name) in `core/models.py`). -/
inductive DbError where
  | multipleObjectsReturned
deriving DecidableEq, Repr

/-- Rows of the tag table matching the exact-match filter
`user=u, name=n` (the keyword arguments `_get_or_create_tags` passes). -/
def findTags (db : DB) (u : Nat) (n : String) : List Tag :=
  db.tags.filter (fun t => t.user == u && t.name == n)

/-- Rows of the ingredient table matching `user=u, name=n`. -/
def findIngredients (db : DB) (u : Nat) (n : String) : List Ingredient :=
  db.ingredients.filter (fun i => i.user == u && i.name == n)

/-- Number of tag rows owned by `u` with name `n`. -/
def countTags (db : DB) (u : Nat) (n : String) : Nat :=
  (findTags db u n).length

/-- Number of ingredient rows owned by `u` with name `n`. -/
def countIngredients (db : DB) (u : Nat) (n : String) : Nat :=
  (findIngredients db u n).length

/-- ORM primitive `Tag.objects.get_or_create(user=u, name=n)`: return the
matching row when exactly one exists, insert a fresh row (with the next
primary key) when none exists, and raise `MultipleObjectsReturned` when
several exist. -/
def tagGetOrCreate (db : DB) (u : Nat) (n : String) : Except DbError (DB × Tag) :=
  match findTags db u n with
  | [] =>
      let t : Tag := { id := db.nextTagId, name := n, user := u }
      .ok ({ db with tags := db.tags ++ [t], nextTagId := db.nextTagId + 1 }, t)
  | [t] => .ok (db, t)
  | _ :: _ :: _ => .error .multipleObjectsReturned

/-- ORM primitive `Ingredient.objects.get_or_create(user=u, name=n)`. -/
def ingredientGetOrCreate (db : DB) (u : Nat) (n : String) :
    Except DbError (DB × Ingredient) :=
  match findIngredients db u n with
  | [] =>
      let i : Ingredient := { id := db.nextIngredientId, name := n, user := u }
      let db' := { db with ingredients := db.ingredients ++ [i], nextIngredientId := db.nextIngredientId + 1 }
      .ok (db', i)
  | [i] => .ok (db, i)
  | _ :: _ :: _ => .error .multipleObjectsReturned

/-- ORM primitive m2m `add`: link sets are sets, so adding an id that is
already linked is a no-op. -/
def m2mAdd (ids : List Nat) (i : Nat) : List Nat :=
  if i ∈ ids then ids else ids ++ [i]

/-- A validated nested label descriptor.  `TagSerializer` and
`IngredientSerializer` declare fields `[id, name]` with `id` read-only, so
the validated content of a descriptor is its `name`. -/
structure LabelDesc where
  name : String
deriving DecidableEq, Repr

/-- Loop body of `RecipeSerializer._get_or_create_tags(tags, recipe)`:
for each descriptor, `get_or_create` a tag for the authenticated user and
`recipe.tags.add(tag_obj)` it; `linked` is the link set of the recipe
being threaded through. -/
def getOrCreateTags (descs : List LabelDesc) (u : Nat) (db : DB)
    (linked : List Nat) : Except DbError (DB × List Nat) :=
  match descs with
  | [] => .ok (db, linked)
  | d :: rest => do
      let (db', t) ← tagGetOrCreate db u d.name
      getOrCreateTags rest u db' (m2mAdd linked t.id)

/-- Loop body of `RecipeSerializer._get_or_create_ingredients`. -/
def getOrCreateIngredients (descs : List LabelDesc) (u : Nat) (db : DB)
    (linked : List Nat) : Except DbError (DB × List Nat) :=
  match descs with
  | [] => .ok (db, linked)
  | d :: rest => do
      let (db', i) ← ingredientGetOrCreate db u d.name
      getOrCreateIngredients rest u db' (m2mAdd linked i.id)

/-- Validated data for `RecipeSerializer.create` (after the view passed
`user=self.request.user` into `serializer.save`).  `tags` and
`ingredients` are `Option` because `create` pops them with default `[]`
when the payload omits the key; scalar fields carry their final values
(model defaults for the blank-allowed `link` and `description` already
applied). -/
structure RecipeCreateData where
  title : String
  description : String
  time_minutes : Int
  price : Int
  link : String
  tags : Option (List LabelDesc)
  ingredients : Option (List LabelDesc)
deriving DecidableEq, Repr

/-- `RecipeSerializer.create(validated_data)`: pop `tags` and
`ingredients` (default `[]`), insert the recipe row, then run the two
get-or-create-and-link loops over the new, initially empty link sets. -/
def serializerCreate (u : Nat) (d : RecipeCreateData) (db : DB) :
    Except DbError (DB × Recipe) := do
  let tagDescs := d.tags.getD []
  let ingredientDescs := d.ingredients.getD []
  let rid := db.nextRecipeId
  let db0 := { db with nextRecipeId := db.nextRecipeId + 1 }
  let (db1, tagIds) ← getOrCreateTags tagDescs u db0 []
  let (db2, ingredientIds) ← getOrCreateIngredients ingredientDescs u db1 []
  let r : Recipe :=
    { id := rid, user := u, title := d.title, description := d.description,
      time_minutes := d.time_minutes, price := d.price, link := d.link,
      tagIds := tagIds, ingredientIds := ingredientIds }
  .ok ({ db2 with recipes := db2.recipes ++ [r] }, r)

/-- Validated data for a (partial) update through
`RecipeDetailSerializer`: each writable field is present or absent.
`tags = some []` models a payload whose `tags` key is the empty list,
`tags = none` a payload that omits the key (then
`validated_data.pop('tags', None)` returns `None`). -/
structure RecipeValidated where
  title : Option String
  description : Option String
  time_minutes : Option Int
  price : Option Int
  link : Option String
  tags : Option (List LabelDesc)
  ingredients : Option (List LabelDesc)
deriving DecidableEq, Repr

/-- ORM primitive: write an updated recipe row back to its table
(`instance.save()` updates the row with the same primary key). -/
def dbUpdateRecipe (db : DB) (r : Recipe) : DB :=
  { db with recipes := db.recipes.map (fun x => if x.id == r.id then r else x) }

/-- `RecipeSerializer.update(instance, validated_data)`: pop `tags` and
`ingredients` with default `None`; when a key is present, `clear()` the
corresponding link set and repopulate it with the get-or-create loop;
then `setattr` every remaining supplied field and `save()`. -/
def serializerUpdate (u : Nat) (inst : Recipe) (v : RecipeValidated) (db : DB) :
    Except DbError (DB × Recipe) := do
  let (db1, tagIds) ←
    match v.tags with
    | none => Except.ok (db, inst.tagIds)
    | some descs => getOrCreateTags descs u db []
  let (db2, ingredientIds) ←
    match v.ingredients with
    | none => Except.ok (db1, inst.ingredientIds)
    | some descs => getOrCreateIngredients descs u db1 []
  let r : Recipe :=
    { id := inst.id, user := inst.user,
      title := v.title.getD inst.title,
      description := v.description.getD inst.description,
      time_minutes := v.time_minutes.getD inst.time_minutes,
      price := v.price.getD inst.price,
      link := v.link.getD inst.link,
      tagIds := tagIds, ingredientIds := ingredientIds }
  .ok (dbUpdateRecipe db2 r, r)

/-- Raw update payload as sent by a client, before serializer validation.
Besides the writable serializer fields it may carry a `user` key and an
`id` key; `user` is not among `RecipeSerializer.Meta.fields` and `id` is
read-only, so validation drops both. -/
structure RecipeRawPayload where
  title : Option String
  description : Option String
  time_minutes : Option Int
  price : Option Int
  link : Option String
  tags : Option (List LabelDesc)
  ingredients : Option (List LabelDesc)
  user : Option Nat
  id : Option Nat
deriving DecidableEq, Repr

/-- Serializer validation of a partial-update payload: keep exactly the
writable `Meta.fields`; the `user` and `id` keys are silently discarded,
never rejected (the function is total). -/
def validatePartial (p : RecipeRawPayload) : RecipeValidated :=
  { title := p.title, description := p.description,
    time_minutes := p.time_minutes, price := p.price, link := p.link,
    tags := p.tags, ingredients := p.ingredients }

/-- A PATCH request on a recipe detail route: validate the raw payload,
then run the serializer update. -/
def partialUpdateRequest (u : Nat) (inst : Recipe) (p : RecipeRawPayload)
    (db : DB) : Except DbError (DB × Recipe) :=
  serializerUpdate u inst (validatePartial p) db

/-- Digit-string to number: `none` when the list is empty or contains a
non-digit character. -/
def digitsToNat (ds : List Char) : Option Nat :=
  match ds with
  | [] => none
  | _ =>
    ds.foldlM (fun acc c => if c.isDigit then some (acc * 10 + (c.toNat - 48)) else none) 0

/-- Python `int(s)` on a string: optional surrounding whitespace, optional
sign, then decimal digits; any other shape raises `ValueError`, modelled
as `none`. -/
def parseIntPy (s : String) : Option Int :=
  let cs := s.toList.dropWhile Char.isWhitespace
  let cs := (cs.reverse.dropWhile Char.isWhitespace).reverse
  match cs with
  | '+' :: ds => (digitsToNat ds).map Int.ofNat
  | '-' :: ds => (digitsToNat ds).map (fun n => -(Int.ofNat n))
  | ds => (digitsToNat ds).map Int.ofNat

/-- Python `qs.split(',')`: split at every comma, keeping empty pieces
(the accumulator holds the current piece reversed). -/
def splitOnCommaAux : List Char → List Char → List String
  | [], acc => [String.mk acc.reverse]
  | c :: cs, acc =>
    if c = ',' then String.mk acc.reverse :: splitOnCommaAux cs []
    else splitOnCommaAux cs (c :: acc)

/-- Python `qs.split(',')` on a string. -/
def splitOnComma (qs : String) : List String :=
  splitOnCommaAux qs.toList []

/-- `RecipeViewSet._params_to_ints(qs)`: split the comma-separated string
and convert each piece with `int`; a piece that is not an integer literal
raises, modelled as `none`. -/
def paramsToInts (qs : String) : Option (List Int) :=
  (splitOnComma qs).mapM parseIntPy

/-- Queryset filter `tags__id__in=ids` on a recipe queryset: an SQL join
against the m2m link table, producing one row per matching link (hence
the need for `distinct()` downstream). -/
def filterByTagIds (rs : List Recipe) (ids : List Int) : List Recipe :=
  rs.flatMap (fun r => (r.tagIds.filter (fun t => ids.contains (Int.ofNat t))).map (fun _ => r))

/-- Queryset filter `ingredients__id__in=ids`. -/
def filterByIngredientIds (rs : List Recipe) (ids : List Int) : List Recipe :=
  rs.flatMap (fun r =>
    (r.ingredientIds.filter (fun i => ids.contains (Int.ofNat i))).map (fun _ => r))

/-- Insertion step of a stable sort on an arbitrary boolean order. -/
def insertBy {α : Type} (le : α → α → Bool) (x : α) : List α → List α
  | [] => [x]
  | y :: ys => if le x y then x :: y :: ys else y :: insertBy le x ys

/-- Stable insertion sort, modelling the SQL `ORDER BY` of a queryset. -/
def sortBy {α : Type} (le : α → α → Bool) : List α → List α
  | [] => []
  | x :: xs => insertBy le x (sortBy le xs)

/-- Queryset `order_by('-id')`: sort rows by descending primary key. -/
def orderByIdDesc (rs : List Recipe) : List Recipe :=
  sortBy (fun a b => decide (b.id ≤ a.id)) rs

/-- Tail of `RecipeViewSet.get_queryset`:
`queryset.filter(user=self.request.user).order_by('-id').distinct()`. -/
def scopeOrderDistinct (q : List Recipe) (u : Nat) : List Recipe :=
  (orderByIdDesc (q.filter (fun r => r.user == u))).dedup

/-- One `if tags:` / `if ingredients:` block of
`RecipeViewSet.get_queryset`: an absent parameter, or a present but
empty one (falsy in Python), leaves the queryset unchanged; otherwise
`_params_to_ints` parses it (`none` models the unhandled `ValueError`)
and `filt` applies the id join. -/
def applyIdFilter (filt : List Recipe → List Int → List Recipe) (q : List Recipe) :
    Option String → Option (List Recipe)
  | none => some q
  | some s => if s = "" then some q else (paramsToInts s).map (filt q)

/-- `RecipeViewSet.get_queryset`: start from all recipes, apply the
`tags` and `ingredients` joins when the parameter is present and truthy,
then `filter(user=...)`, `order_by('-id')` and `distinct()`. -/
def recipeGetQueryset (db : DB) (u : Nat) (tagsParam ingredientsParam : Option String) :
    Option (List Recipe) := do
  let q1 ← applyIdFilter filterByTagIds db.recipes tagsParam
  let q2 ← applyIdFilter filterByIngredientIds q1 ingredientsParam
  some (scopeOrderDistinct q2 u)

/-- HTTP outcome of a detail-route lookup. -/
inductive HttpStatus where
  | ok200
  | notFound404
deriving DecidableEq, Repr

/-- Detail-route lookup (framework `get_object`): filter the scoped
queryset of `RecipeViewSet.get_queryset` (no list-filter parameters on a
detail route) by the primary key from the URL; an empty result raises
`Http404`. -/
def retrieveRecipe (db : DB) (u : Nat) (pk : Nat) : Except HttpStatus Recipe :=
  match recipeGetQueryset db u none none with
  | none => .error .notFound404
  | some qs =>
    match qs.find? (fun r => r.id == pk) with
    | some r => .ok r
    | none => .error .notFound404

/-- DELETE on a recipe detail route: `get_object` through the scoped
queryset, then delete the row with that primary key; a failed lookup
returns 404 and leaves the database untouched. -/
def destroyRecipe (db : DB) (u : Nat) (pk : Nat) : HttpStatus × DB :=
  match retrieveRecipe db u pk with
  | .error e => (e, db)
  | .ok r => (.ok200, { db with recipes := db.recipes.filter (fun x => !(x.id == r.id)) })

/-- Join `recipe__isnull=False` on the tag queryset: one row per
(tag, linked recipe) pair, so a tag on several recipes appears several
times before `distinct()`. -/
def tagAssignedJoin (db : DB) (ts : List Tag) : List Tag :=
  ts.flatMap (fun t => (db.recipes.filter (fun r => r.tagIds.contains t.id)).map (fun _ => t))

/-- Join `recipe__isnull=False` on the ingredient queryset. -/
def ingredientAssignedJoin (db : DB) (is : List Ingredient) : List Ingredient :=
  is.flatMap (fun i =>
    (db.recipes.filter (fun r => r.ingredientIds.contains i.id)).map (fun _ => i))

/-- Queryset `order_by('-name')` for tags: descending name. -/
def tagOrderByNameDesc (ts : List Tag) : List Tag :=
  sortBy (fun a b => !decide (a.name < b.name)) ts

/-- Queryset `order_by('-name')` for ingredients. -/
def ingredientOrderByNameDesc (is : List Ingredient) : List Ingredient :=
  sortBy (fun a b => !decide (a.name < b.name)) is

/-- Tail of `BaseRecipeAttrViewSet.get_queryset` for tags:
`queryset.filter(user=self.request.user).order_by('-name').distinct()`. -/
def tagScopeOrderDistinct (q : List Tag) (u : Nat) : List Tag :=
  (tagOrderByNameDesc (q.filter (fun t => t.user == u))).dedup

/-- Tail of `BaseRecipeAttrViewSet.get_queryset` for ingredients. -/
def ingredientScopeOrderDistinct (q : List Ingredient) (u : Nat) : List Ingredient :=
  (ingredientOrderByNameDesc (q.filter (fun i => i.user == u))).dedup

/-- `BaseRecipeAttrViewSet.get_queryset` for `TagViewSet`:
`assigned_only = bool(int(self.request.query_params.get('assigned_only', 0)))`
— the absent parameter defaults to `0`, a present value goes through an
unguarded `int(...)` (`none` models the unhandled `ValueError`), and any
non-zero result enables the assigned-only join; then
`filter(user=...)`, `order_by('-name')`, `distinct()`. -/
def tagGetQueryset (db : DB) (u : Nat) (assignedOnlyParam : Option String) :
    Option (List Tag) := do
  let v ←
    match assignedOnlyParam with
    | none => some (0 : Int)
    | some s => parseIntPy s
  let queryset := if v = 0 then db.tags else tagAssignedJoin db db.tags
  some (tagScopeOrderDistinct queryset u)

/-- `BaseRecipeAttrViewSet.get_queryset` for `IngredientViewSet`. -/
def ingredientGetQueryset (db : DB) (u : Nat) (assignedOnlyParam : Option String) :
    Option (List Ingredient) := do
  let v ←
    match assignedOnlyParam with
    | none => some (0 : Int)
    | some s => parseIntPy s
  let queryset := if v = 0 then db.ingredients else ingredientAssignedJoin db db.ingredients
  some (ingredientScopeOrderDistinct queryset u)

/-- DELETE on a tag detail route: `get_object` through the scoped
queryset of `BaseRecipeAttrViewSet.get_queryset` (no query parameters on
a detail route), then delete; a failed lookup returns 404 and leaves the
database untouched. -/
def destroyTag (db : DB) (u : Nat) (pk : Nat) : HttpStatus × DB :=
  match (db.tags.filter (fun t => t.user == u)).find? (fun t => t.id == pk) with
  | none => (.notFound404, db)
  | some t => (.ok200, { db with tags := db.tags.filter (fun x => !(x.id == t.id)) })

/-- Request wrapper for a recipe create (`POST /recipe/recipes/`).
Modelled from the spec: the request-level transaction boundary (storage
engine transaction semantics; the project settings module is outside
`src/`) — a failing write is rolled back, leaving the stored state as it
was before the request; a successful write commits the serializer result. -/
def createRecipeRequest (u : Nat) (d : RecipeCreateData) (db : DB) :
    DB × Except DbError Recipe :=
  match serializerCreate u d db with
  | .ok (db', r) => (db', .ok r)
  | .error e => (db, .error e)

/-- Request wrapper for a recipe update (`PATCH /recipe/recipes/{id}/`).
Modelled from the spec: the same request-level transaction boundary as
`createRecipeRequest`. -/
def updateRecipeRequest (u : Nat) (inst : Recipe) (v : RecipeValidated) (db : DB) :
    DB × Except DbError Recipe :=
  match serializerUpdate u inst v db with
  | .ok (db', r) => (db', .ok r)
  | .error e => (db, .error e)

/-- ASCII lowering of a string, modelling Python `str.lower()` on the
domain part of an email. -/
def lowerStr (s : String) : String :=
  String.mk (s.toList.map Char.toLower)

/-- Python `str.strip()`: drop whitespace from both ends. -/
def pyStrip (s : String) : String :=
  String.mk (((s.toList.dropWhile Char.isWhitespace).reverse.dropWhile
    Char.isWhitespace).reverse)

/-- Split a character list at its LAST occurrence of the separator, as
Python `rsplit(sep, 1)` does; `none` when the separator does not occur. -/
def rsplitOnce (sep : Char) : List Char → Option (List Char × List Char)
  | [] => none
  | c :: rest =>
    match rsplitOnce sep rest with
    | some (l, r) => some (c :: l, r)
    | none => if c = sep then some ([], rest) else none

/-- Framework primitive `BaseUserManager.normalize_email(email)`: strip
surrounding whitespace, split at the last `@`, and rebuild with the
domain part lowercased; a string without `@` is returned unchanged. -/
def normalize_email (email : String) : String :=
  match rsplitOnce '@' (pyStrip email).toList with
  | none => email
  | some (l, d) => String.mk l ++ "@" ++ lowerStr (String.mk d)

/-- Stored user record, as far as the email claim needs it
(`core/models.py`, class `User`; the hashed password is kept abstract as
the raw password fed to `set_password`). -/
structure StoredUser where
  email : String
  name : String
  password : Option String
deriving DecidableEq, Repr

/-- Error raised by `UserManager.create_user` on a missing email. -/
inductive UserError where
  | valueError
deriving DecidableEq, Repr

/-- `UserManager.create_user(email, password)` (`core/models.py`): raise
`ValueError` when the email is falsy, otherwise store the user with the
normalised email. -/
def create_user (email : String) (password : Option String) (name : String) :
    Except UserError StoredUser :=
  if email = "" then .error .valueError
  else .ok { email := normalize_email email, name := name, password := password }

/-! Helper lemmas about the embedded primitives. -/

theorem except_bind_ok {ε α β : Type} (a : α) (f : α → Except ε β) :
    (Except.ok a >>= f) = f a := rfl

theorem except_bind_error {ε α β : Type} (e : ε) (f : α → Except ε β) :
    ((Except.error e : Except ε α) >>= f) = Except.error e := rfl

theorem m2mAdd_mem_iff (ids : List Nat) (i x : Nat) :
    x ∈ m2mAdd ids i ↔ x ∈ ids ∨ x = i := by
  unfold m2mAdd
  split
  · rename_i h
    constructor
    · exact fun hx => Or.inl hx
    · rintro (hx | rfl)
      · exact hx
      · exact h
  · simp [List.mem_append]

theorem m2mAdd_mem_self (ids : List Nat) (i : Nat) : i ∈ m2mAdd ids i := by
  rw [m2mAdd_mem_iff]; exact Or.inr rfl

theorem m2mAdd_mem_left (ids : List Nat) (i x : Nat) (h : x ∈ ids) :
    x ∈ m2mAdd ids i := by
  rw [m2mAdd_mem_iff]; exact Or.inl h

theorem findTags_mem (db : DB) (u : Nat) (n : String) (t : Tag)
    (h : t ∈ findTags db u n) : t ∈ db.tags ∧ t.user = u ∧ t.name = n := by
  unfold findTags at h
  rw [List.mem_filter] at h
  obtain ⟨hm, hp⟩ := h
  simp only [Bool.and_eq_true, beq_iff_eq] at hp
  exact ⟨hm, hp.1, hp.2⟩

theorem findIngredients_mem (db : DB) (u : Nat) (n : String) (i : Ingredient)
    (h : i ∈ findIngredients db u n) : i ∈ db.ingredients ∧ i.user = u ∧ i.name = n := by
  unfold findIngredients at h
  rw [List.mem_filter] at h
  obtain ⟨hm, hp⟩ := h
  simp only [Bool.and_eq_true, beq_iff_eq] at hp
  exact ⟨hm, hp.1, hp.2⟩

theorem tagGetOrCreate_found (db : DB) (u : Nat) (n : String) (t : Tag)
    (h : findTags db u n = [t]) : tagGetOrCreate db u n = .ok (db, t) := by
  unfold tagGetOrCreate
  rw [h]

theorem tagGetOrCreate_new (db : DB) (u : Nat) (n : String)
    (h : findTags db u n = []) :
    tagGetOrCreate db u n =
      .ok ({ db with tags := db.tags ++ [⟨db.nextTagId, n, u⟩], nextTagId := db.nextTagId + 1 }, ⟨db.nextTagId, n, u⟩) := by
  unfold tagGetOrCreate
  rw [h]

theorem ingredientGetOrCreate_found (db : DB) (u : Nat) (n : String) (i : Ingredient)
    (h : findIngredients db u n = [i]) : ingredientGetOrCreate db u n = .ok (db, i) := by
  unfold ingredientGetOrCreate
  rw [h]

theorem ingredientGetOrCreate_new (db : DB) (u : Nat) (n : String)
    (h : findIngredients db u n = []) :
    ingredientGetOrCreate db u n =
      .ok ({ db with ingredients := db.ingredients ++ [⟨db.nextIngredientId, n, u⟩], nextIngredientId := db.nextIngredientId + 1 }, ⟨db.nextIngredientId, n, u⟩) := by
  unfold ingredientGetOrCreate
  rw [h]

/-- Claim C2: when an update payload contains the `tags` (respectively
`ingredients`) key, the link set for that relation is cleared and rebuilt
from the descriptors alone — `tags = []` leaves zero tag links — while an
omitted key leaves the existing link set unchanged. -/
theorem update_tags_key_semantics (u : Nat) (inst : Recipe) (v : RecipeValidated) (db : DB) :
    (v.tags = some [] → v.ingredients = none →
      ∃ db' r', serializerUpdate u inst v db = .ok (db', r') ∧
        r'.tagIds = [] ∧ r'.ingredientIds = inst.ingredientIds ∧ db'.tags = db.tags) ∧
    (v.tags = none → v.ingredients = some [] →
      ∃ db' r', serializerUpdate u inst v db = .ok (db', r') ∧
        r'.ingredientIds = [] ∧ r'.tagIds = inst.tagIds ∧
        db'.ingredients = db.ingredients) ∧
    (v.tags = none → v.ingredients = none →
      ∃ db' r', serializerUpdate u inst v db = .ok (db', r') ∧
        r'.tagIds = inst.tagIds ∧ r'.ingredientIds = inst.ingredientIds) ∧
    (∀ descs db1 l, v.tags = some descs → v.ingredients = none →
      getOrCreateTags descs u db [] = .ok (db1, l) →
      ∃ r', serializerUpdate u inst v db = .ok (dbUpdateRecipe db1 r', r') ∧
        r'.tagIds = l) := by
  refine ⟨?_, ?_, ?_, ?_⟩
  · intro ht hi
    unfold serializerUpdate
    rw [ht, hi]
    exact ⟨_, _, rfl, rfl, rfl, rfl⟩
  · intro ht hi
    unfold serializerUpdate
    rw [ht, hi]
    exact ⟨_, _, rfl, rfl, rfl, rfl⟩
  · intro ht hi
    unfold serializerUpdate
    rw [ht, hi]
    exact ⟨_, _, rfl, rfl, rfl⟩
  · intro descs db1 l ht hi hg
    simp only [serializerUpdate, ht, hi, hg, except_bind_ok]
    exact ⟨_, rfl, rfl⟩

/-- Claim C2, instantiated: patching with an empty `tags` list clears all
tag links, and patching without the key preserves them. -/
theorem update_tags_key_semantics_witness :
    (∃ db' r',
      serializerUpdate 7
        ⟨1, 7, "Curry", "", 30, 550, "", [4, 5], [6]⟩
        ⟨none, none, none, none, none, some [], none⟩
        ⟨[], [], [⟨1, 7, "Curry", "", 30, 550, "", [4, 5], [6]⟩], 9, 9, 2⟩ = .ok (db', r') ∧
      r'.tagIds = [] ∧ r'.ingredientIds = [6] ∧ db'.tags = []) ∧
    (∃ db' r',
      serializerUpdate 7
        ⟨1, 7, "Curry", "", 30, 550, "", [4, 5], [6]⟩
        ⟨none, none, none, none, none, none, none⟩
        ⟨[], [], [⟨1, 7, "Curry", "", 30, 550, "", [4, 5], [6]⟩], 9, 9, 2⟩ = .ok (db', r') ∧
      r'.tagIds = [4, 5] ∧ r'.ingredientIds = [6]) := by
  constructor
  · exact (update_tags_key_semantics 7 _ _ _).1 rfl rfl
  · exact (update_tags_key_semantics 7 _ _ _).2.2.1 rfl rfl

/-- Claim C5: a partial update touches only the supplied scalar fields;
every omitted scalar keeps its prior value, and a `user` key in the raw
payload is silently dropped by validation (the request still succeeds),
leaving the owner unchanged. -/
theorem partial_update_frame (u : Nat) (inst : Recipe) (p : RecipeRawPayload) (db : DB)
    (newTitle : String)
    (h1 : p.title = some newTitle) (h2 : p.description = none)
    (h3 : p.time_minutes = none) (h4 : p.price = none) (h5 : p.link = none)
    (h6 : p.tags = none) (h7 : p.ingredients = none) :
    ∃ r', partialUpdateRequest u inst p db = .ok (dbUpdateRecipe db r', r') ∧
      r'.title = newTitle ∧ r'.user = inst.user ∧ r'.id = inst.id ∧
      r'.link = inst.link ∧ r'.description = inst.description ∧
      r'.time_minutes = inst.time_minutes ∧ r'.price = inst.price ∧
      r'.tagIds = inst.tagIds ∧ r'.ingredientIds = inst.ingredientIds ∧
      (dbUpdateRecipe db r').tags = db.tags ∧
      (dbUpdateRecipe db r').ingredients = db.ingredients := by
  unfold partialUpdateRequest validatePartial serializerUpdate
  rw [h1, h2, h3, h4, h5, h6, h7]
  exact ⟨_, rfl, rfl, rfl, rfl, rfl, rfl, rfl, rfl, rfl, rfl, rfl, rfl⟩

/-- Claim C5, instantiated: patching only the title (with a `user` key
present in the payload) changes the title and nothing else. -/
theorem partial_update_frame_witness :
    ∃ r', partialUpdateRequest 7
        ⟨1, 7, "Old title", "Desc", 30, 550, "http://x", [4], [6]⟩
        ⟨some "New recipe title", none, none, none, none, none, none, some 99, some 5⟩
        ⟨[], [], [⟨1, 7, "Old title", "Desc", 30, 550, "http://x", [4], [6]⟩], 9, 9, 2⟩ =
        .ok (dbUpdateRecipe ⟨[], [], [⟨1, 7, "Old title", "Desc", 30, 550, "http://x", [4], [6]⟩], 9, 9, 2⟩ r', r') ∧
      r'.title = "New recipe title" ∧ r'.user = 7 ∧ r'.id = 1 ∧
      r'.link = "http://x" ∧ r'.description = "Desc" ∧
      r'.time_minutes = 30 ∧ r'.price = 550 ∧
      r'.tagIds = [4] ∧ r'.ingredientIds = [6] ∧
      (dbUpdateRecipe ⟨[], [], [⟨1, 7, "Old title", "Desc", 30, 550, "http://x", [4], [6]⟩], 9, 9, 2⟩ r').tags = [] ∧
      (dbUpdateRecipe ⟨[], [], [⟨1, 7, "Old title", "Desc", 30, 550, "http://x", [4], [6]⟩], 9, 9, 2⟩ r').ingredients = [] :=
  partial_update_frame 7 _ _ _ "New recipe title" rfl rfl rfl rfl rfl rfl rfl

theorem m2mAdd_nil (i : Nat) : m2mAdd [] i = [i] := by
  simp [m2mAdd]

/-- Claim C1: creating a recipe whose payload carries tag descriptors
`[Indian, Breakfast]` while the user already owns exactly one `Indian`
tag (and no `Breakfast` tag) reuses the existing `Indian` tag, creates
one `Breakfast` tag, and links both to the new recipe; the same holds
for ingredient descriptors (`Salt` existing, `Pepper` new). -/
theorem create_reuses_existing_labels (db : DB) (u : Nat) (d : RecipeCreateData)
    (hdt : d.tags = some [⟨"Indian"⟩, ⟨"Breakfast"⟩])
    (hdi : d.ingredients = some [⟨"Salt"⟩, ⟨"Pepper"⟩])
    (hT1 : countTags db u "Indian" = 1) (hT2 : countTags db u "Breakfast" = 0)
    (hI1 : countIngredients db u "Salt" = 1) (hI2 : countIngredients db u "Pepper" = 0) :
    ∃ db' r, serializerCreate u d db = .ok (db', r) ∧
      countTags db' u "Indian" = 1 ∧ countTags db' u "Breakfast" = 1 ∧
      (∃ t ∈ db'.tags, t.user = u ∧ t.name = "Indian" ∧ t.id ∈ r.tagIds) ∧
      (∃ t ∈ db'.tags, t.user = u ∧ t.name = "Breakfast" ∧ t.id ∈ r.tagIds) ∧
      countIngredients db' u "Salt" = 1 ∧ countIngredients db' u "Pepper" = 1 ∧
      (∃ i ∈ db'.ingredients, i.user = u ∧ i.name = "Salt" ∧ i.id ∈ r.ingredientIds) ∧
      (∃ i ∈ db'.ingredients, i.user = u ∧ i.name = "Pepper" ∧ i.id ∈ r.ingredientIds) := by
  unfold countTags at hT1 hT2
  unfold countIngredients at hI1 hI2
  obtain ⟨t0, ht0⟩ := List.length_eq_one.mp hT1
  obtain ⟨i0, hi0⟩ := List.length_eq_one.mp hI1
  have hT2e : findTags db u "Breakfast" = [] := List.length_eq_zero.mp hT2
  have hI2e : findIngredients db u "Pepper" = [] := List.length_eq_zero.mp hI2
  simp only [findTags] at ht0 hT2e
  simp only [findIngredients] at hi0 hI2e
  have ht0m : t0 ∈ findTags db u "Indian" := by
    simp only [findTags, ht0, List.mem_singleton]
  have hi0m : i0 ∈ findIngredients db u "Salt" := by
    simp only [findIngredients, hi0, List.mem_singleton]
  obtain ⟨ht0tab, ht0u, ht0n⟩ := findTags_mem db u "Indian" t0 ht0m
  obtain ⟨hi0tab, hi0u, hi0n⟩ := findIngredients_mem db u "Salt" i0 hi0m
  refine ⟨⟨db.tags ++ [⟨db.nextTagId, "Breakfast", u⟩],
          db.ingredients ++ [⟨db.nextIngredientId, "Pepper", u⟩],
          db.recipes ++ [⟨db.nextRecipeId, u, d.title, d.description, d.time_minutes, d.price, d.link, m2mAdd [t0.id] db.nextTagId, m2mAdd [i0.id] db.nextIngredientId⟩],
          db.nextTagId + 1, db.nextIngredientId + 1, db.nextRecipeId + 1⟩,
        ⟨db.nextRecipeId, u, d.title, d.description, d.time_minutes, d.price, d.link, m2mAdd [t0.id] db.nextTagId, m2mAdd [i0.id] db.nextIngredientId⟩,
        ?_, ?_, ?_, ?_, ?_, ?_, ?_, ?_, ?_⟩
  · simp only [serializerCreate, hdt, hdi, Option.getD_some, getOrCreateTags,
      getOrCreateIngredients, tagGetOrCreate, ingredientGetOrCreate, findTags,
      findIngredients, ht0, hT2e, hi0, hI2e, except_bind_ok, m2mAdd_nil]
  · simp only [countTags, findTags, List.filter_append, List.length_append, ht0]
    simp [List.filter]
  · simp only [countTags, findTags, List.filter_append, List.length_append, hT2e]
    simp [List.filter]
  · exact ⟨t0, List.mem_append_left _ ht0tab, ht0u, ht0n,
      m2mAdd_mem_left _ _ _ (List.mem_singleton.mpr rfl)⟩
  · exact ⟨⟨db.nextTagId, "Breakfast", u⟩, List.mem_append_right _ (List.mem_singleton.mpr rfl),
      rfl, rfl, m2mAdd_mem_self _ _⟩
  · simp only [countIngredients, findIngredients, List.filter_append, List.length_append, hi0]
    simp [List.filter]
  · simp only [countIngredients, findIngredients, List.filter_append, List.length_append, hI2e]
    simp [List.filter]
  · exact ⟨i0, List.mem_append_left _ hi0tab, hi0u, hi0n,
      m2mAdd_mem_left _ _ _ (List.mem_singleton.mpr rfl)⟩
  · exact ⟨⟨db.nextIngredientId, "Pepper", u⟩,
      List.mem_append_right _ (List.mem_singleton.mpr rfl),
      rfl, rfl, m2mAdd_mem_self _ _⟩

/-- Claim C1, instantiated: user 7 already owns Tag(Indian) and
Ingredient(Salt); creating the recipe leaves one Indian and one new
Breakfast tag, one Salt and one new Pepper ingredient, all linked. -/
theorem create_reuses_existing_labels_witness :
    ∃ db' r, serializerCreate 7
      ⟨"Curry", "", 30, 550, "", some [⟨"Indian"⟩, ⟨"Breakfast"⟩], some [⟨"Salt"⟩, ⟨"Pepper"⟩]⟩
      ⟨[⟨1, "Indian", 7⟩], [⟨1, "Salt", 7⟩], [], 2, 2, 1⟩ = .ok (db', r) ∧
      countTags db' 7 "Indian" = 1 ∧ countTags db' 7 "Breakfast" = 1 ∧
      (∃ t ∈ db'.tags, t.user = 7 ∧ t.name = "Indian" ∧ t.id ∈ r.tagIds) ∧
      (∃ t ∈ db'.tags, t.user = 7 ∧ t.name = "Breakfast" ∧ t.id ∈ r.tagIds) ∧
      countIngredients db' 7 "Salt" = 1 ∧ countIngredients db' 7 "Pepper" = 1 ∧
      (∃ i ∈ db'.ingredients, i.user = 7 ∧ i.name = "Salt" ∧ i.id ∈ r.ingredientIds) ∧
      (∃ i ∈ db'.ingredients, i.user = 7 ∧ i.name = "Pepper" ∧ i.id ∈ r.ingredientIds) :=
  create_reuses_existing_labels ⟨[⟨1, "Indian", 7⟩], [⟨1, "Salt", 7⟩], [], 2, 2, 1⟩ 7
    ⟨"Curry", "", 30, 550, "", some [⟨"Indian"⟩, ⟨"Breakfast"⟩], some [⟨"Salt"⟩, ⟨"Pepper"⟩]⟩
    rfl rfl rfl rfl rfl rfl

/-- Claim C9: label lookup is exact and case-sensitive — a recipe write
with descriptor `{name: "indian"}` for a user who owns a tag named
`Indian` (and none named `indian`) inserts a second, distinct tag record
instead of reusing the existing one. -/
theorem label_match_case_sensitive (db : DB) (u : Nat) (d : RecipeCreateData) (tOld : Tag)
    (ht : tOld ∈ db.tags) (hown : tOld.user = u) (hn : tOld.name = "Indian")
    (h0 : countTags db u "indian" = 0)
    (hdt : d.tags = some [⟨"indian"⟩]) (hdi : d.ingredients = none) :
    ∃ db' r, serializerCreate u d db = .ok (db', r) ∧
      db'.tags = db.tags ++ [⟨db.nextTagId, "indian", u⟩] ∧
      tOld ∈ db'.tags ∧ (⟨db.nextTagId, "indian", u⟩ : Tag) ≠ tOld ∧
      countTags db' u "indian" = 1 ∧
      db'.tags.length = db.tags.length + 1 ∧
      r.tagIds = [db.nextTagId] := by
  unfold countTags at h0
  have h0e : findTags db u "indian" = [] := List.length_eq_zero.mp h0
  simp only [findTags] at h0e
  refine ⟨⟨db.tags ++ [⟨db.nextTagId, "indian", u⟩], db.ingredients,
          db.recipes ++ [⟨db.nextRecipeId, u, d.title, d.description, d.time_minutes, d.price, d.link, [db.nextTagId], []⟩],
          db.nextTagId + 1, db.nextIngredientId, db.nextRecipeId + 1⟩,
        ⟨db.nextRecipeId, u, d.title, d.description, d.time_minutes, d.price, d.link, [db.nextTagId], []⟩,
        ?_, rfl, List.mem_append_left _ ht, ?_, ?_, by simp, rfl⟩
  · simp only [serializerCreate, hdt, hdi, Option.getD_some, Option.getD_none,
      getOrCreateTags, getOrCreateIngredients, tagGetOrCreate, findTags, h0e,
      except_bind_ok, m2mAdd_nil]
  · intro h
    have hcn := congrArg Tag.name h
    rw [hn] at hcn
    exact absurd (show ("indian" : String) = "Indian" from hcn) (by decide)
  · simp only [countTags, findTags, List.filter_append, List.length_append, h0e]
    simp [List.filter]

/-- Claim C9, instantiated: user 7 owns Tag(Indian); writing a recipe
with tag descriptor `{name: "indian"}` adds a second tag record. -/
theorem label_match_case_sensitive_witness :
    ∃ db' r, serializerCreate 7
      ⟨"Curry", "", 30, 550, "", some [⟨"indian"⟩], none⟩
      ⟨[⟨1, "Indian", 7⟩], [], [], 2, 1, 1⟩ = .ok (db', r) ∧
      db'.tags = [⟨1, "Indian", 7⟩] ++ [⟨2, "indian", 7⟩] ∧
      (⟨1, "Indian", 7⟩ : Tag) ∈ db'.tags ∧ (⟨2, "indian", 7⟩ : Tag) ≠ ⟨1, "Indian", 7⟩ ∧
      countTags db' 7 "indian" = 1 ∧
      db'.tags.length = [(⟨1, "Indian", 7⟩ : Tag)].length + 1 ∧
      r.tagIds = [2] :=
  label_match_case_sensitive ⟨[⟨1, "Indian", 7⟩], [], [], 2, 1, 1⟩ 7
    ⟨"Curry", "", 30, 550, "", some [⟨"indian"⟩], none⟩ ⟨1, "Indian", 7⟩
    (List.mem_singleton.mpr rfl) rfl rfl rfl rfl rfl

theorem tagGetOrCreate_ok_facts (db : DB) (u : Nat) (n : String) (db' : DB) (t : Tag)
    (h : tagGetOrCreate db u n = .ok (db', t)) :
    t ∈ db'.tags ∧ (∀ x ∈ db.tags, x ∈ db'.tags) ∧
    db'.ingredients = db.ingredients ∧ db'.recipes = db.recipes := by
  unfold tagGetOrCreate at h
  cases hf : findTags db u n with
  | nil =>
      rw [hf] at h
      injection h with h1
      rw [Prod.mk.injEq] at h1
      obtain ⟨hdb, htag⟩ := h1
      subst hdb; subst htag
      exact ⟨List.mem_append_right _ (List.mem_singleton.mpr rfl),
        fun x hx => List.mem_append_left _ hx, rfl, rfl⟩
  | cons t1 tl =>
      cases tl with
      | nil =>
          rw [hf] at h
          injection h with h1
          rw [Prod.mk.injEq] at h1
          obtain ⟨hdb, htag⟩ := h1
          subst hdb; subst htag
          have ht1 : t1 ∈ findTags db u n := by rw [hf]; exact List.mem_singleton.mpr rfl
          exact ⟨(findTags_mem db u n t1 ht1).1, fun x hx => hx, rfl, rfl⟩
      | cons t2 tl2 =>
          rw [hf] at h
          exact Except.noConfusion h

theorem ingredientGetOrCreate_ok_facts (db : DB) (u : Nat) (n : String) (db' : DB) (i : Ingredient)
    (h : ingredientGetOrCreate db u n = .ok (db', i)) :
    i ∈ db'.ingredients ∧ (∀ x ∈ db.ingredients, x ∈ db'.ingredients) ∧
    db'.tags = db.tags ∧ db'.recipes = db.recipes := by
  unfold ingredientGetOrCreate at h
  cases hf : findIngredients db u n with
  | nil =>
      rw [hf] at h
      injection h with h1
      rw [Prod.mk.injEq] at h1
      obtain ⟨hdb, hi⟩ := h1
      subst hdb; subst hi
      exact ⟨List.mem_append_right _ (List.mem_singleton.mpr rfl),
        fun x hx => List.mem_append_left _ hx, rfl, rfl⟩
  | cons i1 tl =>
      cases tl with
      | nil =>
          rw [hf] at h
          injection h with h1
          rw [Prod.mk.injEq] at h1
          obtain ⟨hdb, hi⟩ := h1
          subst hdb; subst hi
          have hi1 : i1 ∈ findIngredients db u n := by rw [hf]; exact List.mem_singleton.mpr rfl
          exact ⟨(findIngredients_mem db u n i1 hi1).1, fun x hx => hx, rfl, rfl⟩
      | cons i2 tl2 =>
          rw [hf] at h
          exact Except.noConfusion h

theorem getOrCreateTags_ok_facts (u : Nat) (descs : List LabelDesc) :
    ∀ (db : DB) (acc : List Nat) (db' : DB) (l : List Nat),
      getOrCreateTags descs u db acc = .ok (db', l) →
      (∀ x ∈ db.tags, x ∈ db'.tags) ∧ db'.ingredients = db.ingredients ∧
        db'.recipes = db.recipes ∧
        (∀ i ∈ l, i ∈ acc ∨ ∃ t ∈ db'.tags, t.id = i) := by
  induction descs with
  | nil =>
      intro db acc db' l h
      unfold getOrCreateTags at h
      injection h with h1
      rw [Prod.mk.injEq] at h1
      obtain ⟨hdb, hl⟩ := h1
      subst hdb; subst hl
      exact ⟨fun x hx => hx, rfl, rfl, fun i hi => Or.inl hi⟩
  | cons d rest ih =>
      intro db acc db' l h
      unfold getOrCreateTags at h
      cases hg : tagGetOrCreate db u d.name with
      | error e =>
          rw [hg, except_bind_error] at h
          exact Except.noConfusion h
      | ok p =>
          obtain ⟨dbm, t⟩ := p
          rw [hg] at h
          simp only [except_bind_ok] at h
          obtain ⟨hmono, hing, hrec, hids⟩ := ih dbm (m2mAdd acc t.id) db' l h
          obtain ⟨htm, hmono0, hing0, hrec0⟩ := tagGetOrCreate_ok_facts db u d.name dbm t hg
          refine ⟨fun x hx => hmono x (hmono0 x hx), hing.trans hing0, hrec.trans hrec0, ?_⟩
          intro i hi
          rcases hids i hi with hacc | hex
          · rw [m2mAdd_mem_iff] at hacc
            rcases hacc with h1 | h1
            · exact Or.inl h1
            · exact Or.inr ⟨t, hmono t htm, h1.symm⟩
          · exact Or.inr hex

theorem getOrCreateIngredients_ok_facts (u : Nat) (descs : List LabelDesc) :
    ∀ (db : DB) (acc : List Nat) (db' : DB) (l : List Nat),
      getOrCreateIngredients descs u db acc = .ok (db', l) →
      (∀ x ∈ db.ingredients, x ∈ db'.ingredients) ∧ db'.tags = db.tags ∧
        db'.recipes = db.recipes ∧
        (∀ i ∈ l, i ∈ acc ∨ ∃ t ∈ db'.ingredients, t.id = i) := by
  induction descs with
  | nil =>
      intro db acc db' l h
      unfold getOrCreateIngredients at h
      injection h with h1
      rw [Prod.mk.injEq] at h1
      obtain ⟨hdb, hl⟩ := h1
      subst hdb; subst hl
      exact ⟨fun x hx => hx, rfl, rfl, fun i hi => Or.inl hi⟩
  | cons d rest ih =>
      intro db acc db' l h
      unfold getOrCreateIngredients at h
      cases hg : ingredientGetOrCreate db u d.name with
      | error e =>
          rw [hg, except_bind_error] at h
          exact Except.noConfusion h
      | ok p =>
          obtain ⟨dbm, i1⟩ := p
          rw [hg] at h
          simp only [except_bind_ok] at h
          obtain ⟨hmono, htg, hrec, hids⟩ := ih dbm (m2mAdd acc i1.id) db' l h
          obtain ⟨him, hmono0, htg0, hrec0⟩ := ingredientGetOrCreate_ok_facts db u d.name dbm i1 hg
          refine ⟨fun x hx => hmono x (hmono0 x hx), htg.trans htg0, hrec.trans hrec0, ?_⟩
          intro i hi
          rcases hids i hi with hacc | hex
          · rw [m2mAdd_mem_iff] at hacc
            rcases hacc with h1 | h1
            · exact Or.inl h1
            · exact Or.inr ⟨i1, hmono i1 him, h1.symm⟩
          · exact Or.inr hex

theorem serializerCreate_ok_facts (u : Nat) (d : RecipeCreateData) (db db' : DB) (r : Recipe)
    (h : serializerCreate u d db = .ok (db', r)) :
    r ∈ db'.recipes ∧ (∀ tid ∈ r.tagIds, ∃ t ∈ db'.tags, t.id = tid) ∧
    (∀ iid ∈ r.ingredientIds, ∃ i ∈ db'.ingredients, i.id = iid) := by
  simp only [serializerCreate] at h
  cases hg1 : getOrCreateTags (d.tags.getD []) u { db with nextRecipeId := db.nextRecipeId + 1 } [] with
  | error e =>
      rw [hg1, except_bind_error] at h
      exact Except.noConfusion h
  | ok p1 =>
      obtain ⟨db1, tagIds⟩ := p1
      rw [hg1] at h
      simp only [except_bind_ok] at h
      cases hg2 : getOrCreateIngredients (d.ingredients.getD []) u db1 [] with
      | error e =>
          rw [hg2, except_bind_error] at h
          exact Except.noConfusion h
      | ok p2 =>
          obtain ⟨db2, ingredientIds⟩ := p2
          rw [hg2] at h
          simp only [except_bind_ok] at h
          injection h with h1
          rw [Prod.mk.injEq] at h1
          obtain ⟨hdb, hr⟩ := h1
          subst hdb; subst hr
          obtain ⟨_, _, _, htids⟩ :=
            getOrCreateTags_ok_facts u (d.tags.getD []) _ [] db1 tagIds hg1
          obtain ⟨_, htg2, _, hiids⟩ :=
            getOrCreateIngredients_ok_facts u (d.ingredients.getD []) db1 [] db2 ingredientIds hg2
          refine ⟨List.mem_append_right _ (List.mem_singleton.mpr rfl), ?_, ?_⟩
          · intro tid htid
            rcases htids tid htid with hn | ⟨t, htm, hte⟩
            · exact absurd hn (List.not_mem_nil _)
            · exact ⟨t, by rw [← htg2] at htm; exact htm, hte⟩
          · intro iid hiid
            rcases hiids iid hiid with hn | ⟨i, him, hie⟩
            · exact absurd hn (List.not_mem_nil _)
            · exact ⟨i, him, hie⟩

/-- Claim C4: a recipe create or update request together with its label
reconciliation succeeds or fails as a whole — on failure the stored
state is exactly the pre-request state, and on success the recipe row is
stored with every linked tag and ingredient id resolving to a stored
label row. -/
theorem recipe_write_all_or_nothing (u : Nat) (d : RecipeCreateData)
    (inst : Recipe) (v : RecipeValidated) (db : DB) :
    (∀ e, (createRecipeRequest u d db).2 = .error e → (createRecipeRequest u d db).1 = db) ∧
    (∀ r, (createRecipeRequest u d db).2 = .ok r →
      r ∈ (createRecipeRequest u d db).1.recipes ∧
      (∀ tid ∈ r.tagIds, ∃ t ∈ (createRecipeRequest u d db).1.tags, t.id = tid) ∧
      (∀ iid ∈ r.ingredientIds, ∃ i ∈ (createRecipeRequest u d db).1.ingredients, i.id = iid)) ∧
    (∀ e, (updateRecipeRequest u inst v db).2 = .error e → (updateRecipeRequest u inst v db).1 = db) := by
  refine ⟨?_, ?_, ?_⟩
  · intro e he
    unfold createRecipeRequest at he ⊢
    cases hs : serializerCreate u d db with
    | ok p =>
        obtain ⟨db2, r2⟩ := p
        rw [hs] at he
        have he' : (Except.ok r2 : Except DbError Recipe) = .error e := he
        exact Except.noConfusion he'
    | error e2 => rfl
  · intro r hr
    unfold createRecipeRequest at hr ⊢
    cases hs : serializerCreate u d db with
    | error e2 =>
        rw [hs] at hr
        have hr' : (Except.error e2 : Except DbError Recipe) = .ok r := hr
        exact Except.noConfusion hr'
    | ok p =>
        obtain ⟨db2, r2⟩ := p
        rw [hs] at hr
        have hr' : (Except.ok r2 : Except DbError Recipe) = .ok r := hr
        injection hr' with hr1
        subst hr1
        exact serializerCreate_ok_facts u d db db2 r2 hs
  · intro e he
    unfold updateRecipeRequest at he ⊢
    cases hs : serializerUpdate u inst v db with
    | ok p =>
        obtain ⟨db2, r2⟩ := p
        rw [hs] at he
        have he' : (Except.ok r2 : Except DbError Recipe) = .error e := he
        exact Except.noConfusion he'
    | error e2 => rfl

/-- Claim C4, instantiated: a create whose `Indian` descriptor matches
two duplicate stored tags fails with `MultipleObjectsReturned`, and the
request leaves the store exactly as it was; a create on a clean store
succeeds with the full linked state. -/
theorem recipe_write_all_or_nothing_witness :
    ((createRecipeRequest 7 ⟨"Curry", "", 30, 550, "", some [⟨"Indian"⟩], none⟩
        ⟨[⟨1, "Indian", 7⟩, ⟨2, "Indian", 7⟩], [], [], 3, 1, 1⟩).2 =
      .error .multipleObjectsReturned ∧
     (createRecipeRequest 7 ⟨"Curry", "", 30, 550, "", some [⟨"Indian"⟩], none⟩
        ⟨[⟨1, "Indian", 7⟩, ⟨2, "Indian", 7⟩], [], [], 3, 1, 1⟩).1 =
      ⟨[⟨1, "Indian", 7⟩, ⟨2, "Indian", 7⟩], [], [], 3, 1, 1⟩) ∧
    ((createRecipeRequest 7 ⟨"Curry", "", 30, 550, "", some [⟨"Indian"⟩], none⟩
        ⟨[], [], [], 1, 1, 1⟩).2 =
      .ok ⟨1, 7, "Curry", "", 30, 550, "", [1], []⟩ ∧
     (⟨1, 7, "Curry", "", 30, 550, "", [1], []⟩ : Recipe) ∈
      (createRecipeRequest 7 ⟨"Curry", "", 30, 550, "", some [⟨"Indian"⟩], none⟩
        ⟨[], [], [], 1, 1, 1⟩).1.recipes) := by
  refine ⟨⟨rfl, ?_⟩, rfl, ?_⟩
  · exact (recipe_write_all_or_nothing 7 ⟨"Curry", "", 30, 550, "", some [⟨"Indian"⟩], none⟩
      ⟨1, 7, "x", "", 0, 0, "", [], []⟩ ⟨none, none, none, none, none, none, none⟩
      ⟨[⟨1, "Indian", 7⟩, ⟨2, "Indian", 7⟩], [], [], 3, 1, 1⟩).1 .multipleObjectsReturned rfl
  · exact ((recipe_write_all_or_nothing 7 ⟨"Curry", "", 30, 550, "", some [⟨"Indian"⟩], none⟩
      ⟨1, 7, "x", "", 0, 0, "", [], []⟩ ⟨none, none, none, none, none, none, none⟩
      ⟨[], [], [], 1, 1, 1⟩).2.1 ⟨1, 7, "Curry", "", 30, 550, "", [1], []⟩ rfl).1

theorem option_bind_some {α β : Type} (a : α) (f : α → Option β) :
    (some a >>= f) = f a := rfl

theorem option_none_bind {α β : Type} (f : α → Option β) :
    ((none : Option α) >>= f) = none := rfl

theorem insertBy_perm {α : Type} (le : α → α → Bool) (x : α) (l : List α) :
    (insertBy le x l).Perm (x :: l) := by
  induction l with
  | nil => exact List.Perm.refl _
  | cons y ys ih =>
      unfold insertBy
      split
      · exact List.Perm.refl _
      · exact (ih.cons y).trans (List.Perm.swap x y ys)

theorem sortBy_perm {α : Type} (le : α → α → Bool) (l : List α) :
    (sortBy le l).Perm l := by
  induction l with
  | nil => exact List.Perm.refl _
  | cons x xs ih =>
      unfold sortBy
      exact (insertBy_perm le x (sortBy le xs)).trans (ih.cons x)

theorem mem_scopeOrderDistinct (q : List Recipe) (u : Nat) (r : Recipe) :
    r ∈ scopeOrderDistinct q u ↔ r ∈ q ∧ r.user = u := by
  unfold scopeOrderDistinct orderByIdDesc
  rw [List.mem_dedup, (sortBy_perm _ _).mem_iff, List.mem_filter]
  simp [beq_iff_eq]

theorem nodup_scopeOrderDistinct (q : List Recipe) (u : Nat) :
    (scopeOrderDistinct q u).Nodup :=
  List.nodup_dedup _

theorem mem_filterByTagIds (rs : List Recipe) (ids : List Int) (r : Recipe) :
    r ∈ filterByTagIds rs ids ↔ r ∈ rs ∧ ∃ tid ∈ r.tagIds, Int.ofNat tid ∈ ids := by
  unfold filterByTagIds
  rw [List.mem_flatMap]
  constructor
  · rintro ⟨a, ha, hr⟩
    rw [List.mem_map] at hr
    obtain ⟨x, hx, rfl⟩ := hr
    rw [List.mem_filter] at hx
    exact ⟨ha, x, hx.1, by simpa using hx.2⟩
  · rintro ⟨hrs, tid, htid, hin⟩
    refine ⟨r, hrs, ?_⟩
    rw [List.mem_map]
    exact ⟨tid, List.mem_filter.mpr ⟨htid, by simpa⟩, rfl⟩

theorem mem_filterByIngredientIds (rs : List Recipe) (ids : List Int) (r : Recipe) :
    r ∈ filterByIngredientIds rs ids ↔
      r ∈ rs ∧ ∃ iid ∈ r.ingredientIds, Int.ofNat iid ∈ ids := by
  unfold filterByIngredientIds
  rw [List.mem_flatMap]
  constructor
  · rintro ⟨a, ha, hr⟩
    rw [List.mem_map] at hr
    obtain ⟨x, hx, rfl⟩ := hr
    rw [List.mem_filter] at hx
    exact ⟨ha, x, hx.1, by simpa using hx.2⟩
  · rintro ⟨hrs, iid, hiid, hin⟩
    refine ⟨r, hrs, ?_⟩
    rw [List.mem_map]
    exact ⟨iid, List.mem_filter.mpr ⟨hiid, by simpa⟩, rfl⟩

theorem applyIdFilter_some (filt : List Recipe → List Int → List Recipe)
    (q : List Recipe) (p : Option String) (q' : List Recipe)
    (h : applyIdFilter filt q p = some q') :
    q' = q ∨ ∃ ids, q' = filt q ids := by
  cases p with
  | none =>
      injection h with h1
      exact Or.inl h1.symm
  | some s =>
      simp only [applyIdFilter] at h
      split at h
      · injection h with h1
        exact Or.inl h1.symm
      · cases hp : paramsToInts s with
        | none => rw [hp, Option.map_none'] at h; exact Option.noConfusion h
        | some ids =>
            rw [hp, Option.map_some'] at h
            injection h with h1
            exact Or.inr ⟨ids, h1.symm⟩

theorem recipeGetQueryset_some (db : DB) (u : Nat) (tp ip : Option String) (l : List Recipe)
    (h : recipeGetQueryset db u tp ip = some l) :
    ∃ q, l = scopeOrderDistinct q u ∧ ∀ r ∈ q, r ∈ db.recipes := by
  unfold recipeGetQueryset at h
  cases h1 : applyIdFilter filterByTagIds db.recipes tp with
  | none => rw [h1, option_none_bind] at h; exact Option.noConfusion h
  | some q1 =>
      rw [h1, option_bind_some] at h
      cases h2 : applyIdFilter filterByIngredientIds q1 ip with
      | none => rw [h2, option_none_bind] at h; exact Option.noConfusion h
      | some q2 =>
          rw [h2, option_bind_some] at h
          injection h with h3
          refine ⟨q2, h3.symm, ?_⟩
          intro r hr
          have hq1 : r ∈ q1 := by
            rcases applyIdFilter_some _ _ _ _ h2 with he | ⟨ids, he⟩
            · rw [← he]; exact hr
            · rw [he] at hr
              exact ((mem_filterByIngredientIds q1 ids r).mp hr).1
          rcases applyIdFilter_some _ _ _ _ h1 with he | ⟨ids, he⟩
          · rw [← he]; exact hq1
          · rw [he] at hq1
            exact ((mem_filterByTagIds db.recipes ids r).mp hq1).1

theorem mem_tagScopeOrderDistinct (q : List Tag) (u : Nat) (t : Tag) :
    t ∈ tagScopeOrderDistinct q u ↔ t ∈ q ∧ t.user = u := by
  unfold tagScopeOrderDistinct tagOrderByNameDesc
  rw [List.mem_dedup, (sortBy_perm _ _).mem_iff, List.mem_filter]
  simp [beq_iff_eq]

theorem mem_ingredientScopeOrderDistinct (q : List Ingredient) (u : Nat) (i : Ingredient) :
    i ∈ ingredientScopeOrderDistinct q u ↔ i ∈ q ∧ i.user = u := by
  unfold ingredientScopeOrderDistinct ingredientOrderByNameDesc
  rw [List.mem_dedup, (sortBy_perm _ _).mem_iff, List.mem_filter]
  simp [beq_iff_eq]

theorem mem_tagAssignedJoin (db : DB) (ts : List Tag) (t : Tag) :
    t ∈ tagAssignedJoin db ts ↔ t ∈ ts ∧ ∃ r ∈ db.recipes, t.id ∈ r.tagIds := by
  unfold tagAssignedJoin
  rw [List.mem_flatMap]
  constructor
  · rintro ⟨a, ha, ht⟩
    rw [List.mem_map] at ht
    obtain ⟨r, hr, rfl⟩ := ht
    rw [List.mem_filter] at hr
    exact ⟨ha, r, hr.1, by simpa using hr.2⟩
  · rintro ⟨hts, r, hr, hid⟩
    refine ⟨t, hts, ?_⟩
    rw [List.mem_map]
    exact ⟨r, List.mem_filter.mpr ⟨hr, by simpa⟩, rfl⟩

theorem tagGetQueryset_some (db : DB) (u : Nat) (ap : Option String) (l : List Tag)
    (h : tagGetQueryset db u ap = some l) :
    ∃ q, l = tagScopeOrderDistinct q u ∧ ∀ t ∈ q, t ∈ db.tags := by
  cases ap with
  | none =>
      have h' : some (tagScopeOrderDistinct db.tags u) = some l := h
      injection h' with h1
      exact ⟨db.tags, h1.symm, fun t ht => ht⟩
  | some s =>
      simp only [tagGetQueryset, option_bind_some] at h
      cases hp : parseIntPy s with
      | none => rw [hp, option_none_bind] at h; exact Option.noConfusion h
      | some v =>
          rw [hp, option_bind_some] at h
          split at h <;> injection h with h1
          · exact ⟨db.tags, h1.symm, fun t ht => ht⟩
          · exact ⟨tagAssignedJoin db db.tags, h1.symm,
              fun t ht => ((mem_tagAssignedJoin db db.tags t).mp ht).1⟩

theorem mem_ingredientAssignedJoin (db : DB) (is : List Ingredient) (i : Ingredient) :
    i ∈ ingredientAssignedJoin db is ↔
      i ∈ is ∧ ∃ r ∈ db.recipes, i.id ∈ r.ingredientIds := by
  unfold ingredientAssignedJoin
  rw [List.mem_flatMap]
  constructor
  · rintro ⟨a, ha, hi⟩
    rw [List.mem_map] at hi
    obtain ⟨r, hr, rfl⟩ := hi
    rw [List.mem_filter] at hr
    exact ⟨ha, r, hr.1, by simpa using hr.2⟩
  · rintro ⟨his, r, hr, hid⟩
    refine ⟨i, his, ?_⟩
    rw [List.mem_map]
    exact ⟨r, List.mem_filter.mpr ⟨hr, by simpa⟩, rfl⟩

theorem ingredientGetQueryset_some (db : DB) (u : Nat) (ap : Option String)
    (l : List Ingredient) (h : ingredientGetQueryset db u ap = some l) :
    ∃ q, l = ingredientScopeOrderDistinct q u ∧ ∀ i ∈ q, i ∈ db.ingredients := by
  cases ap with
  | none =>
      have h' : some (ingredientScopeOrderDistinct db.ingredients u) = some l := h
      injection h' with h1
      exact ⟨db.ingredients, h1.symm, fun i hi => hi⟩
  | some s =>
      simp only [ingredientGetQueryset, option_bind_some] at h
      cases hp : parseIntPy s with
      | none => rw [hp, option_none_bind] at h; exact Option.noConfusion h
      | some v =>
          rw [hp, option_bind_some] at h
          split at h <;> injection h with h1
          · exact ⟨db.ingredients, h1.symm, fun i hi => hi⟩
          · exact ⟨ingredientAssignedJoin db db.ingredients, h1.symm,
              fun i hi => ((mem_ingredientAssignedJoin db db.ingredients i).mp hi).1⟩

/-- Claim C3: every record visible or mutable through the recipe, tag
and ingredient endpoints is owned by the requesting user; retrieving or
deleting a recipe of another user (or a tag of another user) by id
fails as 404 — there is no 403 outcome in the lookup — and leaves the
stored state unchanged. -/
theorem ownership_scoping (db : DB) (u pk : Nat) :
    (∀ tp ip l, recipeGetQueryset db u tp ip = some l → ∀ r ∈ l, r.user = u) ∧
    ((∀ rec ∈ db.recipes, rec.id = pk → rec.user ≠ u) →
      retrieveRecipe db u pk = .error .notFound404 ∧
      destroyRecipe db u pk = (.notFound404, db)) ∧
    (∀ ap l, tagGetQueryset db u ap = some l → ∀ t ∈ l, t.user = u) ∧
    (∀ ap l, ingredientGetQueryset db u ap = some l → ∀ i ∈ l, i.user = u) ∧
    ((∀ t ∈ db.tags, t.id = pk → t.user ≠ u) → destroyTag db u pk = (.notFound404, db)) := by
  refine ⟨?_, ?_, ?_, ?_, ?_⟩
  · intro tp ip l h r hr
    obtain ⟨q, rfl, _⟩ := recipeGetQueryset_some db u tp ip l h
    exact ((mem_scopeOrderDistinct q u r).mp hr).2
  · intro hno
    have hq : recipeGetQueryset db u none none = some (scopeOrderDistinct db.recipes u) := rfl
    have hfind : (scopeOrderDistinct db.recipes u).find? (fun r => r.id == pk) = none := by
      rw [List.find?_eq_none]
      intro x hx hbeq
      rw [mem_scopeOrderDistinct] at hx
      exact hno x hx.1 (by simpa using hbeq) hx.2
    have hret : retrieveRecipe db u pk = .error .notFound404 := by
      simp only [retrieveRecipe, hq, hfind]
    refine ⟨hret, ?_⟩
    simp only [destroyRecipe, hret]
  · intro ap l h t ht
    obtain ⟨q, rfl, _⟩ := tagGetQueryset_some db u ap l h
    exact ((mem_tagScopeOrderDistinct q u t).mp ht).2
  · intro ap l h i hi
    obtain ⟨q, rfl, _⟩ := ingredientGetQueryset_some db u ap l h
    exact ((mem_ingredientScopeOrderDistinct q u i).mp hi).2
  · intro hno
    have hfind : (db.tags.filter (fun t => t.user == u)).find? (fun t => t.id == pk) = none := by
      rw [List.find?_eq_none]
      intro x hx hbeq
      rw [List.mem_filter] at hx
      exact hno x hx.1 (by simpa using hbeq) (by simpa using hx.2)
    simp only [destroyTag, hfind]

/-- Claim C3, instantiated: user 7 sees only their own recipe in the
list; retrieving or deleting recipe 1 (owned by user 2) gives 404 and
leaves the store untouched, as does deleting tag 1 (owned by user 2). -/
theorem ownership_scoping_witness :
    (∀ r ∈ [(⟨2, 7, "Mine", "", 5, 100, "", [], []⟩ : Recipe)], r.user = 7) ∧
    retrieveRecipe ⟨[⟨1, "T", 2⟩], [], [⟨1, 2, "Other", "", 5, 100, "", [], []⟩, ⟨2, 7, "Mine", "", 5, 100, "", [], []⟩], 2, 1, 3⟩ 7 1 = .error .notFound404 ∧
    destroyRecipe ⟨[⟨1, "T", 2⟩], [], [⟨1, 2, "Other", "", 5, 100, "", [], []⟩, ⟨2, 7, "Mine", "", 5, 100, "", [], []⟩], 2, 1, 3⟩ 7 1 =
      (.notFound404, ⟨[⟨1, "T", 2⟩], [], [⟨1, 2, "Other", "", 5, 100, "", [], []⟩, ⟨2, 7, "Mine", "", 5, 100, "", [], []⟩], 2, 1, 3⟩) ∧
    destroyTag ⟨[⟨1, "T", 2⟩], [], [⟨1, 2, "Other", "", 5, 100, "", [], []⟩, ⟨2, 7, "Mine", "", 5, 100, "", [], []⟩], 2, 1, 3⟩ 7 1 =
      (.notFound404, ⟨[⟨1, "T", 2⟩], [], [⟨1, 2, "Other", "", 5, 100, "", [], []⟩, ⟨2, 7, "Mine", "", 5, 100, "", [], []⟩], 2, 1, 3⟩) := by
  refine ⟨?_, ?_, ?_, ?_⟩
  · exact (ownership_scoping ⟨[⟨1, "T", 2⟩], [], [⟨1, 2, "Other", "", 5, 100, "", [], []⟩, ⟨2, 7, "Mine", "", 5, 100, "", [], []⟩], 2, 1, 3⟩ 7 1).1
      none none _ rfl
  · exact ((ownership_scoping ⟨[⟨1, "T", 2⟩], [], [⟨1, 2, "Other", "", 5, 100, "", [], []⟩, ⟨2, 7, "Mine", "", 5, 100, "", [], []⟩], 2, 1, 3⟩ 7 1).2.1
      (by decide)).1
  · exact ((ownership_scoping ⟨[⟨1, "T", 2⟩], [], [⟨1, 2, "Other", "", 5, 100, "", [], []⟩, ⟨2, 7, "Mine", "", 5, 100, "", [], []⟩], 2, 1, 3⟩ 7 1).2.1
      (by decide)).2
  · exact (ownership_scoping ⟨[⟨1, "T", 2⟩], [], [⟨1, 2, "Other", "", 5, 100, "", [], []⟩, ⟨2, 7, "Mine", "", 5, 100, "", [], []⟩], 2, 1, 3⟩ 7 1).2.2.2.2
      (by decide)

/-- Claim C6: listing recipes with filter `tags=ids` returns exactly the
recipes of the requesting user linked to at least one of the given tag ids
(the union), and each such recipe appears exactly once in the result,
even when it is linked to several of the ids; the comma-separated
`ingredients` filter behaves the same way over the ingredient links. -/
theorem list_filter_union_distinct (db : DB) (u : Nat) (ts : String) (ids : List Int)
    (hts : ts ≠ "") (hp : paramsToInts ts = some ids) :
    (∃ l, recipeGetQueryset db u (some ts) none = some l ∧
      (∀ r, r ∈ l ↔ (r ∈ db.recipes ∧ r.user = u ∧ ∃ tid ∈ r.tagIds, Int.ofNat tid ∈ ids)) ∧
      (∀ r ∈ l, l.count r = 1)) ∧
    (∃ l, recipeGetQueryset db u none (some ts) = some l ∧
      (∀ r, r ∈ l ↔ (r ∈ db.recipes ∧ r.user = u ∧ ∃ iid ∈ r.ingredientIds, Int.ofNat iid ∈ ids)) ∧
      (∀ r ∈ l, l.count r = 1)) := by
  constructor
  · refine ⟨scopeOrderDistinct (filterByTagIds db.recipes ids) u, ?_, ?_, ?_⟩
    · simp only [recipeGetQueryset, applyIdFilter, if_neg hts, hp, Option.map_some',
        option_bind_some]
    · intro r
      rw [mem_scopeOrderDistinct, mem_filterByTagIds]
      constructor
      · rintro ⟨⟨h1, h2⟩, h3⟩
        exact ⟨h1, h3, h2⟩
      · rintro ⟨h1, h2, h3⟩
        exact ⟨⟨h1, h3⟩, h2⟩
    · intro r hr
      exact List.count_eq_one_of_mem (List.nodup_dedup _) hr
  · refine ⟨scopeOrderDistinct (filterByIngredientIds db.recipes ids) u, ?_, ?_, ?_⟩
    · simp only [recipeGetQueryset, applyIdFilter, if_neg hts, hp, Option.map_some',
        option_bind_some]
    · intro r
      rw [mem_scopeOrderDistinct, mem_filterByIngredientIds]
      constructor
      · rintro ⟨⟨h1, h2⟩, h3⟩
        exact ⟨h1, h3, h2⟩
      · rintro ⟨h1, h2, h3⟩
        exact ⟨⟨h1, h3⟩, h2⟩
    · intro r hr
      exact List.count_eq_one_of_mem (List.nodup_dedup _) hr

/-- Claim C6, instantiated: with `tags=1,2`, recipe A (linked to tags 1
and 2) shows up for user 7 exactly once despite matching both ids, and
the recipe of user 9 never shows; the same store filtered with
`ingredients=1,2` behaves identically over the ingredient links. -/
theorem list_filter_union_distinct_witness :
    (∃ l, recipeGetQueryset
        ⟨[], [], [⟨1, 7, "A", "", 1, 100, "", [1, 2], [1, 2]⟩, ⟨2, 7, "B", "", 1, 100, "", [3], [3]⟩, ⟨3, 9, "C", "", 1, 100, "", [1], [1]⟩], 4, 4, 4⟩
        7 (some "1,2") none = some l ∧
      (∀ r, r ∈ l ↔ (r ∈ [(⟨1, 7, "A", "", 1, 100, "", [1, 2], [1, 2]⟩ : Recipe), ⟨2, 7, "B", "", 1, 100, "", [3], [3]⟩, ⟨3, 9, "C", "", 1, 100, "", [1], [1]⟩] ∧
        r.user = 7 ∧ ∃ tid ∈ r.tagIds, Int.ofNat tid ∈ [(1 : Int), 2])) ∧
      (∀ r ∈ l, l.count r = 1)) ∧
    (∃ l, recipeGetQueryset
        ⟨[], [], [⟨1, 7, "A", "", 1, 100, "", [1, 2], [1, 2]⟩, ⟨2, 7, "B", "", 1, 100, "", [3], [3]⟩, ⟨3, 9, "C", "", 1, 100, "", [1], [1]⟩], 4, 4, 4⟩
        7 none (some "1,2") = some l ∧
      (∀ r, r ∈ l ↔ (r ∈ [(⟨1, 7, "A", "", 1, 100, "", [1, 2], [1, 2]⟩ : Recipe), ⟨2, 7, "B", "", 1, 100, "", [3], [3]⟩, ⟨3, 9, "C", "", 1, 100, "", [1], [1]⟩] ∧
        r.user = 7 ∧ ∃ iid ∈ r.ingredientIds, Int.ofNat iid ∈ [(1 : Int), 2])) ∧
      (∀ r ∈ l, l.count r = 1)) :=
  list_filter_union_distinct
    ⟨[], [], [⟨1, 7, "A", "", 1, 100, "", [1, 2], [1, 2]⟩, ⟨2, 7, "B", "", 1, 100, "", [3], [3]⟩, ⟨3, 9, "C", "", 1, 100, "", [1], [1]⟩], 4, 4, 4⟩
    7 "1,2" [1, 2] (by decide) rfl

/-- Claim C10: the `assigned_only` query parameter goes through an
unguarded `int(...)` conversion — any non-integer value (such as `true`
or the empty string) makes the queryset computation raise, modelled as
`none`, rather than produce a field-level validation error — and any
non-zero integer value, not only 1, enables the assigned-only filter. -/
theorem assigned_only_unguarded_int (db : DB) (u : Nat) :
    (∀ s, parseIntPy s = none →
      tagGetQueryset db u (some s) = none ∧ ingredientGetQueryset db u (some s) = none) ∧
    (∀ s n, parseIntPy s = some n → n ≠ 0 →
      ∃ l, tagGetQueryset db u (some s) = some l ∧
        ∀ t, t ∈ l ↔ (t ∈ db.tags ∧ t.user = u ∧ ∃ r ∈ db.recipes, t.id ∈ r.tagIds)) ∧
    (∀ s, parseIntPy s = some 0 →
      tagGetQueryset db u (some s) = tagGetQueryset db u none) := by
  refine ⟨?_, ?_, ?_⟩
  · intro s hp
    constructor
    · simp only [tagGetQueryset, hp, option_none_bind]
    · simp only [ingredientGetQueryset, hp, option_none_bind]
  · intro s n hp hn
    refine ⟨tagScopeOrderDistinct (tagAssignedJoin db db.tags) u, ?_, ?_⟩
    · simp only [tagGetQueryset, hp, option_bind_some, if_neg hn]
    · intro t
      rw [mem_tagScopeOrderDistinct, mem_tagAssignedJoin]
      constructor
      · rintro ⟨⟨h1, h2⟩, h3⟩
        exact ⟨h1, h3, h2⟩
      · rintro ⟨h1, h2, h3⟩
        exact ⟨⟨h1, h3⟩, h2⟩
  · intro s hp
    simp only [tagGetQueryset, hp, option_bind_some]

/-- Claim C10, instantiated: `assigned_only=true` and `assigned_only=`
raise (no tag list is produced), while `assigned_only=2` enables the
assigned-only filter. -/
theorem assigned_only_unguarded_int_witness :
    (tagGetQueryset ⟨[⟨1, "A", 7⟩, ⟨2, "B", 7⟩], [], [⟨1, 7, "R", "", 1, 100, "", [1], []⟩], 3, 1, 2⟩ 7 (some "true") = none ∧
     ingredientGetQueryset ⟨[⟨1, "A", 7⟩, ⟨2, "B", 7⟩], [], [⟨1, 7, "R", "", 1, 100, "", [1], []⟩], 3, 1, 2⟩ 7 (some "true") = none) ∧
    (tagGetQueryset ⟨[⟨1, "A", 7⟩, ⟨2, "B", 7⟩], [], [⟨1, 7, "R", "", 1, 100, "", [1], []⟩], 3, 1, 2⟩ 7 (some "") = none) ∧
    (∃ l, tagGetQueryset ⟨[⟨1, "A", 7⟩, ⟨2, "B", 7⟩], [], [⟨1, 7, "R", "", 1, 100, "", [1], []⟩], 3, 1, 2⟩ 7 (some "2") = some l ∧
      ∀ t, t ∈ l ↔ (t ∈ [(⟨1, "A", 7⟩ : Tag), ⟨2, "B", 7⟩] ∧ t.user = 7 ∧
        ∃ r ∈ [(⟨1, 7, "R", "", 1, 100, "", [1], []⟩ : Recipe)], t.id ∈ r.tagIds)) := by
  refine ⟨?_, ?_, ?_⟩
  · exact (assigned_only_unguarded_int ⟨[⟨1, "A", 7⟩, ⟨2, "B", 7⟩], [], [⟨1, 7, "R", "", 1, 100, "", [1], []⟩], 3, 1, 2⟩ 7).1 "true" rfl
  · exact ((assigned_only_unguarded_int ⟨[⟨1, "A", 7⟩, ⟨2, "B", 7⟩], [], [⟨1, 7, "R", "", 1, 100, "", [1], []⟩], 3, 1, 2⟩ 7).1 "" rfl).1
  · exact (assigned_only_unguarded_int ⟨[⟨1, "A", 7⟩, ⟨2, "B", 7⟩], [], [⟨1, 7, "R", "", 1, 100, "", [1], []⟩], 3, 1, 2⟩ 7).2.1 "2" 2 rfl (by decide)

theorem string_mk_toList (s : String) : String.mk s.toList = s := by
  cases s
  rfl

theorem rsplitOnce_none (sep : Char) (cs : List Char) (h : sep ∉ cs) :
    rsplitOnce sep cs = none := by
  induction cs with
  | nil => rfl
  | cons c cs ih =>
      have hcne : ¬ (c = sep) := fun hc => h (by rw [← hc]; exact List.mem_cons_self c cs)
      have htl : sep ∉ cs := fun hm => h (List.mem_cons_of_mem c hm)
      simp only [rsplitOnce, ih htl, if_neg hcne]

theorem rsplitOnce_append (sep : Char) (l d : List Char) (hd : sep ∉ d) :
    rsplitOnce sep (l ++ sep :: d) = some (l, d) := by
  induction l with
  | nil =>
      simp only [List.nil_append, rsplitOnce, rsplitOnce_none sep d hd]
      simp
  | cons c l ih =>
      simp only [List.cons_append, rsplitOnce, List.append_eq, ih]

/-- Claim C8: for an accepted email of the shape `local@domain` (with no
surrounding whitespace and no `@` in the domain part), the stored email
is the input with the part after the final `@` lowercased and the local
part kept verbatim. -/
theorem email_domain_normalization (email localPart domain name : String) (pw : Option String)
    (he : email = localPart ++ "@" ++ domain)
    (hd : '@' ∉ domain.toList)
    (ht : pyStrip email = email) :
    create_user email pw name =
      .ok { email := localPart ++ "@" ++ lowerStr domain, name := name, password := pw } := by
  have hlist : (localPart ++ "@" ++ domain).toList =
      localPart.toList ++ '@' :: domain.toList := by
    simp
  have hne : email ≠ "" := by
    rw [he]
    intro h0
    have h1 : (localPart ++ "@" ++ domain).toList = [] := by rw [h0]; rfl
    rw [hlist] at h1
    exact absurd h1 (by simp)
  have hsplit : rsplitOnce '@' (pyStrip email).toList =
      some (localPart.toList, domain.toList) := by
    rw [ht, he, hlist]
    exact rsplitOnce_append '@' _ _ hd
  simp only [create_user, if_neg hne, normalize_email, hsplit, string_mk_toList]

/-- Claim C8, instantiated: `Test2@Example.com` is stored as
`Test2@example.com`. -/
theorem email_domain_normalization_witness :
    create_user "Test2@Example.com" (some "testpass123") "Sam" =
      .ok { email := "Test2" ++ "@" ++ lowerStr "Example.com", name := "Sam",
            password := some "testpass123" } :=
  email_domain_normalization "Test2@Example.com" "Test2" "Example.com" "Sam"
    (some "testpass123") (by decide) (by decide) (by decide)

end RecipeApp


